import Mathlib

/-!
Verification development for the end-of-day sales report job in `src/main.js`.

The JavaScript source is shallowly embedded below.  JS numbers are modelled
by exact arithmetic: integers by `Int`/`Nat` and monetary amounts by `ℚ`
(the spec phrase: exactly over exact arithmetic).  JS strings are Lean
`String`s; the core string operations the program uses (`trim`, `split`,
`toUpperCase`, `startsWith`, `parseInt`, `parseFloat`) are re-implemented
over the underlying character lists so that they are fully computable.
File-system access, CLI argument handling and `JSON.stringify` are outside
the embedded core, which covers the blank-line filtering of `readNonEmptyLines`
(on an input already split into raw lines) through `formatReportLines`.
The best-effort `new Date(createdAt)` validity test is platform behaviour,
so it is abstracted as a `validDate : String → Bool` parameter; no claim
depends on which strings are valid dates.
-/

namespace SalesReport

/-! ### JS string primitives -/

/-- JS `String.prototype.trim` (restricted to ASCII whitespace). -/
def jsTrim (s : String) : String :=
  ⟨((s.data.dropWhile Char.isWhitespace).reverse.dropWhile Char.isWhitespace).reverse⟩

/-- JS `String.prototype.toUpperCase` (character-wise upper-casing). -/
def jsToUpper (s : String) : String :=
  ⟨s.data.map Char.toUpper⟩

/-- Splits a character list at every occurrence of `sep`.  Mirrors JS
`String.prototype.split` with a single-character separator: the result is
always non-empty and `"".split(sep)` is `[""]`. -/
def splitChar (sep : Char) : List Char → List (List Char)
  | [] => [[]]
  | c :: rest =>
    if c = sep then
      [] :: splitChar sep rest
    else
      match splitChar sep rest with
      | [] => [[c]]
      | group :: groups => (c :: group) :: groups

/-- JS `s.split(sep)` for a one-character separator. -/
def jsSplit (s : String) (sep : Char) : List String :=
  (splitChar sep s.data).map (fun cs => ⟨cs⟩)

/-- JS `String.prototype.startsWith`. -/
def jsStartsWith (s p : String) : Bool :=
  p.data.isPrefixOf s.data

/-- Value of a base-10 digit run. -/
def digitsToNat (ds : List Char) : Nat :=
  ds.foldl (fun n c => 10 * n + (c.toNat - '0'.toNat)) 0

/-- Reads an optional leading `+`/`-` sign, returning the sign and the rest. -/
def readSign : List Char → Int × List Char
  | [] => (1, [])
  | c :: rest =>
    if c = '-' then (-1, rest)
    else if c = '+' then (1, rest)
    else (1, c :: rest)

/-- JS `parseInt(text, 10)`: skip leading whitespace, read an optional sign
and then the longest leading run of decimal digits; `none` models `NaN`
(no digits at all). -/
def jsParseInt (s : String) : Option Int :=
  let signed := readSign (s.data.dropWhile Char.isWhitespace)
  let ds := signed.2.takeWhile Char.isDigit
  if ds.isEmpty then none else some (signed.1 * (digitsToNat ds : Int))

/-- Reads a JS exponent suffix (`e`/`E`, optional sign, digits); an exponent
with no digits is not consumed, as in `parseFloat`, and yields `0`. -/
def readExponent (cs : List Char) : Int :=
  match cs with
  | 'e' :: t =>
    let signed := readSign t
    let ds := signed.2.takeWhile Char.isDigit
    if ds.isEmpty then 0 else signed.1 * (digitsToNat ds : Int)
  | 'E' :: t =>
    let signed := readSign t
    let ds := signed.2.takeWhile Char.isDigit
    if ds.isEmpty then 0 else signed.1 * (digitsToNat ds : Int)
  | _ => 0

/-- JS `parseFloat(text)`: longest leading decimal literal
(sign, integer digits, optional fraction, optional exponent), as an exact
rational.  `none` models `NaN`; the non-finite `"Infinity"` is also mapped
to `none`, which the sanitiser treats identically (`Number.isFinite` fails
on both, so the defaulting behaviour matches). -/
def jsParseFloat (s : String) : Option ℚ :=
  let signed := readSign (s.data.dropWhile Char.isWhitespace)
  let ip := signed.2.takeWhile Char.isDigit
  let afterInt := signed.2.drop ip.length
  let fp :=
    match afterInt with
    | '.' :: t => t.takeWhile Char.isDigit
    | _ => []
  let afterFrac :=
    match afterInt with
    | '.' :: t => t.drop fp.length
    | _ => afterInt
  if ip.isEmpty ∧ fp.isEmpty then none
  else
    let mantissa : Int := signed.1 * (digitsToNat (ip ++ fp) : Int)
    let exp10 : Int := readExponent afterFrac - fp.length
    some (if 0 ≤ exp10 then
            Rat.divInt (mantissa * (10 ^ exp10.toNat)) 1
          else
            Rat.divInt mantissa (10 ^ (-exp10).toNat))

/-! ### Header indexer (`parseHeaderIndex`, `validateHeader`) -/

/-- Type `HeaderIndex`: mapping from column name to zero-based position. -/
def HeaderIndex : Type := String → Option Nat

/-- The loop body of `parseHeaderIndex`: starting at position `i`, perform
`index[header[i].trim()] = i` for each remaining raw field in order, so a
repeated name is silently overwritten by the later occurrence. -/
def buildHeaderIndex : List String → Nat → HeaderIndex → HeaderIndex
  | [], _, idx => idx
  | field :: rest, i, idx =>
    buildHeaderIndex rest (i + 1)
      (fun name => if name = jsTrim field then some i else idx name)

/-- Function `parseHeaderIndex(headerLine)`. -/
def parseHeaderIndex (headerLine : String) : HeaderIndex :=
  buildHeaderIndex (jsSplit headerLine ',') 0 (fun _ => none)

/-- The `required` list passed to `validateHeader` in `run`. -/
def requiredColumns : List String :=
  ["orderId", "customerId", "customerName", "product",
   "units", "unitPrice", "region", "createdAt"]

/-- Function `validateHeader(index, required)`: returns the first required name with
no index entry (the JS `{ ok: false, missing }` result), or `none` when all
are present. -/
def validateHeader (idx : HeaderIndex) : List String → Option String
  | [] => none
  | name :: rest =>
    match idx name with
    | none => some name
    | some _ => validateHeader idx rest

/-! ### Row parser / sanitizer -/

/-- Function `getColumn(parts, index, key)`, i.e. `(parts[i] || "").trim()`, with a
missing index entry or out-of-range position giving `""`. -/
def getColumn (parts : List String) (idx : HeaderIndex) (key : String) : String :=
  jsTrim (match idx key with
          | none => ""
          | some i => parts.getD i "")

/-- A validated row (`OrderRow`). -/
structure OrderRow where
  orderId : String
  customerId : String
  customerName : String
  product : String
  region : String
  units : Int
  unitPrice : ℚ
  createdAt : String
deriving DecidableEq

/-- Function `addWarning`: the string pushed is `"row " + lineNumber + " " + message`. -/
def mkWarning (lineNumber : Nat) (message : String) : String :=
  "row " ++ toString lineNumber ++ " " ++ message

/-- The `units` sanitisation step of `parseOrderRow`:
`if (!Number.isFinite(units) || units <= 0) { units = 1; warn }`. -/
def sanitizeUnits (lineNumber : Nat) (parsed : Option Int) : Int × List String :=
  match parsed with
  | none => (1, [mkWarning lineNumber "invalid units; defaulted to 1"])
  | some u =>
    if u ≤ 0 then (1, [mkWarning lineNumber "invalid units; defaulted to 1"])
    else (u, [])

/-- The `unitPrice` sanitisation step of `parseOrderRow`:
`if (!Number.isFinite(unitPrice) || unitPrice < 0) { unitPrice = 0; warn }`. -/
def sanitizeUnitPrice (lineNumber : Nat) (parsed : Option ℚ) : ℚ × List String :=
  match parsed with
  | none => (0, [mkWarning lineNumber "invalid unitPrice; defaulted to 0"])
  | some p =>
    if p < 0 then (0, [mkWarning lineNumber "invalid unitPrice; defaulted to 0"])
    else (p, [])

/-- Function `parseOrderRow(parts, index, lineNumber, expectedColumns, warnings)`:
returns the parsed row (or `none` for a rejection) together with the list
of warnings appended for this row, in emission order.  Both rejection
branches return before any warning is pushed. -/
def parseOrderRow (validDate : String → Bool) (parts : List String)
    (idx : HeaderIndex) (lineNumber : Nat) (expectedColumns : Nat) :
    Option OrderRow × List String :=
  if parts.length < expectedColumns then (none, [])
  else
    let orderId := getColumn parts idx "orderId"
    let customerId := getColumn parts idx "customerId"
    let customerName := getColumn parts idx "customerName"
    let product := getColumn parts idx "product"
    let region := jsToUpper (getColumn parts idx "region")
    let createdAt := getColumn parts idx "createdAt"
    let parsedUnits := jsParseInt (getColumn parts idx "units")
    let parsedPrice := jsParseFloat (getColumn parts idx "unitPrice")
    if orderId = "" ∨ customerId = "" then (none, [])
    else
      let nameWs :=
        if customerName = "" then
          [mkWarning lineNumber ("missing customerName for " ++ customerId)]
        else []
      let productWs :=
        if product = "" then
          [mkWarning lineNumber ("missing product for order " ++ orderId)]
        else []
      let regionWs :=
        if region = "" then
          [mkWarning lineNumber ("missing region for order " ++ orderId)]
        else []
      let sanUnits := sanitizeUnits lineNumber parsedUnits
      let sanPrice := sanitizeUnitPrice lineNumber parsedPrice
      let dateWs :=
        if validDate createdAt then []
        else [mkWarning lineNumber ("invalid createdAt: " ++ createdAt)]
      (some { orderId := orderId, customerId := customerId,
              customerName := customerName, product := product,
              region := region, units := sanUnits.1,
              unitPrice := sanPrice.1, createdAt := createdAt },
       nameWs ++ productWs ++ regionWs ++ sanUnits.2 ++ sanPrice.2 ++ dateWs)

/-! ### Discount rule evaluator -/

/-- Function `calculateDiscountRate(row)`. -/
def calculateDiscountRate (row : OrderRow) : ℚ :=
  let d0 : ℚ := 0
  let d1 := if jsStartsWith row.customerId "VIP-" then d0 + 1/10 else d0
  let d2 := if row.region = "EU" then d1 + 1/20 else d1
  let d3 := if row.units ≥ 100 then d2 + 7/100 else d2
  min d3 (1/4)

/-- The derived per-row amounts (`lineGross`, `lineDiscount`, `lineNet`). -/
structure LineAmounts where
  lineGross : ℚ
  lineDiscount : ℚ
  lineNet : ℚ
deriving DecidableEq

/-- The amount computations in the loop body of `run`:
`lineGross = units * unitPrice`, `lineDiscount = lineGross * rate`,
`lineNet = lineGross - lineDiscount`. -/
def lineAmounts (row : OrderRow) : LineAmounts :=
  let discountRate := calculateDiscountRate row
  let lineGross : ℚ := (row.units : ℚ) * row.unitPrice
  let lineDiscount := lineGross * discountRate
  { lineGross := lineGross, lineDiscount := lineDiscount,
    lineNet := lineGross - lineDiscount }

/-! ### Aggregator -/

/-- A per-region / per-customer bucket `{orders, units, gross, net}`. -/
structure Bucket where
  orders : Nat
  units : Int
  gross : ℚ
  net : ℚ
deriving DecidableEq

/-- The freshly created bucket `{ orders: 0, units: 0, gross: 0, net: 0 }`. -/
def emptyBucket : Bucket :=
  { orders := 0, units := 0, gross := 0, net := 0 }

/-- The aggregate state (the shape built by `createAggregates`).  The JS string-keyed
objects `byRegion`/`byCustomer` are modelled as insertion-ordered
association lists (object keys containing a `"|"` or region names are
enumerated in insertion order). -/
structure Aggregates where
  totalOrders : Nat
  totalUnits : Int
  gross : ℚ
  net : ℚ
  discounted : ℚ
  badRows : Nat
  byRegion : List (String × Bucket)
  byCustomer : List (String × Bucket)
  warnings : List String
deriving DecidableEq

/-- Function `createAggregates()`. -/
def createAggregates : Aggregates :=
  { totalOrders := 0, totalUnits := 0, gross := 0, net := 0, discounted := 0,
    badRows := 0, byRegion := [], byCustomer := [], warnings := [] }

/-- First bucket stored under `key`, if any (JS property lookup). -/
def findBucket : List (String × Bucket) → String → Option Bucket
  | [], _ => none
  | p :: rest, key => if p.1 = key then some p.2 else findBucket rest key

/-- Functions `ensureRegionBucket` and `ensureCustomerBucket`: create the bucket on
first sight of the key. -/
def ensureBucket (m : List (String × Bucket)) (key : String) :
    List (String × Bucket) :=
  if (findBucket m key).isSome then m else m ++ [(key, emptyBucket)]

/-- In-place update of the bucket stored under `key`. -/
def modifyBucket (m : List (String × Bucket)) (key : String)
    (f : Bucket → Bucket) : List (String × Bucket) :=
  m.map (fun p => if p.1 = key then (p.1, f p.2) else p)

/-- The four per-bucket increments `applyRowToAggregates` performs for one
row, after ensuring the bucket exists. -/
def bumpBucket (m : List (String × Bucket)) (key : String) (row : OrderRow)
    (amounts : LineAmounts) : List (String × Bucket) :=
  modifyBucket (ensureBucket m key) key
    (fun b => { orders := b.orders + 1, units := b.units + row.units,
                gross := b.gross + amounts.lineGross,
                net := b.net + amounts.lineNet })

/-- The customer bucket key `row.customerId + "|" + row.customerName`. -/
def customerKey (customerId customerName : String) : String :=
  customerId ++ "|" ++ customerName

/-- Function `applyRowToAggregates(agg, row, amounts)`. -/
def applyRowToAggregates (agg : Aggregates) (row : OrderRow)
    (amounts : LineAmounts) : Aggregates :=
  { agg with
    totalOrders := agg.totalOrders + 1,
    totalUnits := agg.totalUnits + row.units,
    gross := agg.gross + amounts.lineGross,
    net := agg.net + amounts.lineNet,
    discounted := agg.discounted + amounts.lineDiscount,
    byRegion := bumpBucket agg.byRegion row.region row amounts,
    byCustomer :=
      bumpBucket agg.byCustomer (customerKey row.customerId row.customerName)
        row amounts }

/-! ### The run loop -/

/-- Function `readNonEmptyLines`, applied to the file already split at line breaks:
keeps exactly the lines that are non-blank after trimming. -/
def readNonEmptyLines (rawLines : List String) : List String :=
  rawLines.filter (fun x => jsTrim x ≠ "")

/-- One iteration of the `for` loop of `run` over `lines[k]`: parse the line
(with `lineNumber = k + 1`), then either count a bad row or fold the row
into the aggregates.  Warnings emitted by the parser are appended either
way (a rejected line contributes none). -/
def processLine (validDate : String → Bool) (idx : HeaderIndex)
    (expectedColumns : Nat) (agg : Aggregates) (k : Nat) (line : String) :
    Aggregates :=
  let parts := jsSplit line ','
  let lineNumber := k + 1
  match parseOrderRow validDate parts idx lineNumber expectedColumns with
  | (none, ws) =>
    { agg with badRows := agg.badRows + 1, warnings := agg.warnings ++ ws }
  | (some row, ws) =>
    applyRowToAggregates { agg with warnings := agg.warnings ++ ws } row
      (lineAmounts row)

/-- The run loop: fold `processLine` over the data lines, with `k` counting
from 1 (so the first data line of the filtered file gets `lineNumber = 2`). -/
def processLines (validDate : String → Bool) (idx : HeaderIndex)
    (expectedColumns : Nat) : Aggregates → Nat → List String → Aggregates
  | agg, _, [] => agg
  | agg, k, line :: rest =>
    processLines validDate idx expectedColumns
      (processLine validDate idx expectedColumns agg k line) (k + 1) rest

/-- The abort causes of the embedded part of `run` (each prints a message
and returns exit code 1).  Argument/path errors happen before the embedded
core and are out of scope. -/
inductive RunError where
  | noData : RunError
  | badHeader (missing : String) : RunError
deriving DecidableEq

/-- The core of `run(csvPath, outDir)`, from `readNonEmptyLines` to the
finalized aggregates: blank-line filtering, the `lines.length < 2` check,
header indexing and validation, and the data-line fold. -/
def run (validDate : String → Bool) (rawLines : List String) :
    Except RunError Aggregates :=
  let lines := readNonEmptyLines rawLines
  if lines.length < 2 then Except.error RunError.noData
  else
    match lines with
    | [] => Except.error RunError.noData
    | headerLine :: dataLines =>
      let idx := parseHeaderIndex headerLine
      match validateHeader idx requiredColumns with
      | some missing => Except.error (RunError.badHeader missing)
      | none =>
        let expectedColumns := (jsSplit headerLine ',').length
        Except.ok (processLines validDate idx expectedColumns
          createAggregates 1 dataLines)

/-- The exit code of `run` for the embedded outcomes: 1 on any abort, 0 once the
aggregates are produced (output writing is an external sink). -/
def exitCode (r : Except RunError Aggregates) : Nat :=
  match r with
  | Except.error _ => 1
  | Except.ok _ => 0

/-- The warnings collected by a completed run (empty on an abort). -/
def runResultWarnings (r : Except RunError Aggregates) : List String :=
  match r with
  | Except.error _ => []
  | Except.ok agg => agg.warnings

/-! ### Report formatter -/

/-- A row of the output of `buildSortedCustomers`. -/
structure CustomerEntry where
  id : String
  name : String
  orders : Nat
  units : Int
  gross : ℚ
  net : ℚ
deriving DecidableEq

/-- The destructuring `const [id, name] = k.split("|")`: the first two segments (a key with a
single segment leaves `name` undefined, displayed like the empty string). -/
def splitKey (k : String) : String × String :=
  match jsSplit k '|' with
  | [] => ("", "")
  | [a] => (a, "")
  | a :: b :: _ => (a, b)

/-- The unsorted customer list in `byCustomer` insertion order. -/
def customerEntries (agg : Aggregates) : List CustomerEntry :=
  agg.byCustomer.map (fun p =>
    { id := (splitKey p.1).1, name := (splitKey p.1).2,
      orders := p.2.orders, units := p.2.units,
      gross := p.2.gross, net := p.2.net })

/-- The comparator `(a, b) => b.net - a.net`: `a` may precede `b` iff
`a.net ≥ b.net`. -/
def customerLe (a b : CustomerEntry) : Bool :=
  decide (b.net ≤ a.net)

/-- Function `buildSortedCustomers(agg)`: stable sort (JS `Array.prototype.sort`)
of the insertion-ordered entries, by net descending. -/
def buildSortedCustomers (agg : Aggregates) : List CustomerEntry :=
  (customerEntries agg).mergeSort customerLe

/-- The default JS string comparator used by `Object.keys(..).sort()`. -/
def regionLe (a b : String) : Bool :=
  decide (a ≤ b)

/-- Function `buildSortedRegions(agg)`: the region keys in ascending lexicographic
order. -/
def buildSortedRegions (agg : Aggregates) : List String :=
  (agg.byRegion.map Prod.fst).mergeSort regionLe

/-- JS `Number.prototype.toFixed(2)` over exact rationals: the value
rounded to cents, rendered with exactly two decimals. -/
def toFixed2 (q : ℚ) : String :=
  let cents : Int := round (q * 100)
  let sign := if cents < 0 then "-" else ""
  let a := cents.natAbs
  sign ++ toString (a / 100) ++ "." ++
    (if a % 100 < 10 then "0" else "") ++ toString (a % 100)

/-- JS `String(n).padStart(2, "0")`. -/
def padTo2 (s : String) : String :=
  ⟨List.replicate (2 - s.data.length) '0' ++ s.data⟩

/-- The banner and summary lines of `formatReportLines`. -/
def summaryBlock (agg : Aggregates) : List String :=
  ["EOD Sales Report", "===============", "", "Summary", "-------",
   "Orders: " ++ toString agg.totalOrders,
   "Units: " ++ toString agg.totalUnits,
   "Gross: $" ++ toFixed2 agg.gross,
   "Discounts: $" ++ toFixed2 agg.discounted,
   "Net: $" ++ toFixed2 agg.net,
   "Bad rows skipped: " ++ toString agg.badRows]

/-- One line of the "By Region" listing. -/
def regionLine (agg : Aggregates) (reg : String) : String :=
  let s := (findBucket agg.byRegion reg).getD emptyBucket
  reg ++ " | orders=" ++ toString s.orders ++ " units=" ++ toString s.units ++
    " gross=$" ++ toFixed2 s.gross ++ " net=$" ++ toFixed2 s.net

/-- The "By Region" block of the report. -/
def regionBlock (agg : Aggregates) : List String :=
  ["", "By Region", "---------"] ++
    (buildSortedRegions agg).map (regionLine agg)

/-- One line of the "Top Customers" listing (`c` is the zero-based rank). -/
def customerLine (c : Nat) (x : CustomerEntry) : String :=
  padTo2 (toString (c + 1)) ++ ". " ++
    (if x.name = "" then "(unknown)" else x.name) ++ " [" ++ x.id ++
    "] => orders=" ++ toString x.orders ++ " units=" ++ toString x.units ++
    " net=$" ++ toFixed2 x.net

/-- The "Top Customers" block of the report: the first
`min(10, customers.length)` sorted customers. -/
def customerBlock (agg : Aggregates) : List String :=
  ["", "Top Customers (by net)", "----------------------"] ++
    ((buildSortedCustomers agg).take 10).enum.map
      (fun p => customerLine p.1 p.2)

/-- The body of the "Warnings" block: `"(none)"` when empty, otherwise the
first 50 warnings each prefixed `"- "`, plus an overflow line when more
than 50 exist. -/
def warningLines (ws : List String) : List String :=
  if ws.length = 0 then ["(none)"]
  else
    (ws.take 50).map (fun w => "- " ++ w) ++
      (if 50 < ws.length then
        ["- (+" ++ toString (ws.length - 50) ++ " more)"]
      else [])

/-- Function `formatReportLines(agg)`. -/
def formatReportLines (agg : Aggregates) : List String :=
  summaryBlock agg ++ regionBlock agg ++ customerBlock agg ++
    ["", "Warnings", "--------"] ++ warningLines agg.warnings

/-! ### Derived observations used by the statements -/

/-- A property of the aggregates produced by a successful run (trivially
true on an abort). -/
def onSuccess (P : Aggregates → Prop) : Except RunError Aggregates → Prop
  | Except.error _ => True
  | Except.ok agg => P agg

/-- Orders counted in the bucket stored under `key` (0 if absent). -/
def ordersAt (m : List (String × Bucket)) (key : String) : Nat :=
  ((findBucket m key).getD emptyBucket).orders

/-- Total orders over all buckets of a bucket map. -/
def sumOrders (m : List (String × Bucket)) : Nat :=
  (m.map (fun p => p.2.orders)).sum

/-- Zero-based position of the last occurrence of `name`, if any.  Used to
state that a repeated header name is resolved to its last position. -/
def lastIdxOf (name : String) : List String → Option Nat
  | [] => none
  | field :: rest =>
    match lastIdxOf name rest with
    | some j => some (j + 1)
    | none => if field = name then some 0 else none

/-- The warnings the run loop appends for the given data lines when the
loop counter starts at `k`: the line at offset `j` is parsed with
`lineNumber = k + j + 1`, its 1-based position among the non-blank lines
of the file. -/
def warningsFromLines (validDate : String → Bool) (idx : HeaderIndex)
    (expectedColumns : Nat) : Nat → List String → List String
  | _, [] => []
  | k, line :: rest =>
    (parseOrderRow validDate (jsSplit line ',') idx (k + 1) expectedColumns).2 ++
      warningsFromLines validDate idx expectedColumns (k + 1) rest

/-- Modelled from the spec, discount rules (§4.3): the sum of the three
independent additive contributions — 0.10 for a `"VIP-"` prefix, 0.05 for
region `"EU"`, 0.07 for `units ≥ 100`.  Stated separately from
`calculateDiscountRate` so the code can be compared against it. -/
def discountRateSpec (row : OrderRow) : ℚ :=
  (if jsStartsWith row.customerId "VIP-" then (1/10 : ℚ) else 0) +
    (if row.region = "EU" then (1/20 : ℚ) else 0) +
    (if row.units ≥ 100 then (7/100 : ℚ) else 0)

/-! ### Concrete fixtures for witnesses -/

/-- A date-validity oracle accepting everything (the `Date` parse is
warning-only, so any oracle exercises the claims). -/
def alwaysDate : String → Bool := fun _ => true

/-- The canonical header line of the CSV format. -/
def stdHeader : String :=
  "orderId,customerId,customerName,product,units,unitPrice,region,createdAt"

/-- The header index of `stdHeader`. -/
def stdIdx : HeaderIndex := parseHeaderIndex stdHeader

end SalesReport

namespace SalesReport

/-! ### Helper lemmas -/

theorem discountRate_nonneg (row : OrderRow) : 0 ≤ calculateDiscountRate row := by
  simp only [calculateDiscountRate]
  split_ifs <;> norm_num

theorem discountRate_le_quarter (row : OrderRow) :
    calculateDiscountRate row ≤ 1/4 := by
  simp only [calculateDiscountRate]
  split_ifs <;> norm_num

/-- C1: `calculateDiscountRate` is exactly the capped sum of the three
independent additive contributions; the uncapped sum never exceeds
0.22, so the min-cap at 0.25 never changes the result, which always lies
in `[0, 0.25]`. -/
theorem discount_rate_additive_capped (row : OrderRow) :
    calculateDiscountRate row = min (discountRateSpec row) (1/4) ∧
    calculateDiscountRate row = discountRateSpec row ∧
    0 ≤ calculateDiscountRate row ∧
    calculateDiscountRate row ≤ 1/4 ∧
    discountRateSpec row ≤ 11/50 := by
  have hspec : discountRateSpec row ≤ 11/50 := by
    simp only [discountRateSpec]
    split_ifs <;> norm_num
  have hmin : calculateDiscountRate row = min (discountRateSpec row) (1/4) := by
    simp only [calculateDiscountRate, discountRateSpec]
    split_ifs <;> norm_num
  have heq : calculateDiscountRate row = discountRateSpec row := by
    rw [hmin]
    exact min_eq_left (le_trans hspec (by norm_num))
  exact ⟨hmin, heq, discountRate_nonneg row, discountRate_le_quarter row, hspec⟩

theorem digit_not_whitespace (c : Char) (h : c.isDigit = true) :
    c.isWhitespace = false := by
  cases hw : c.isWhitespace with
  | false => rfl
  | true =>
    exfalso
    simp only [Char.isWhitespace, Bool.or_eq_true, decide_eq_true_eq] at hw
    rcases hw with ((h1 | h1) | h1) | h1 <;>
      rw [h1] at h <;> exact absurd h (by decide)

theorem digit_not_dash (c : Char) (h : c.isDigit = true) : ¬(c = '-') := by
  intro heq
  rw [heq] at h
  exact absurd h (by decide)

theorem digit_not_plus (c : Char) (h : c.isDigit = true) : ¬(c = '+') := by
  intro heq
  rw [heq] at h
  exact absurd h (by decide)

theorem takeWhile_append_all (p : Char → Bool) (ds rest : List Char)
    (hall : ∀ c ∈ ds, p c = true)
    (hrest : ∀ c, rest.head? = some c → p c = false) :
    (ds ++ rest).takeWhile p = ds := by
  induction ds with
  | nil =>
    cases rest with
    | nil => rfl
    | cons r t => simp [List.takeWhile_cons, hrest r rfl]
  | cons d t ih =>
    have hd := hall d (List.mem_cons_self d t)
    simp [List.cons_append, List.takeWhile_cons, hd,
      ih (fun c hc => hall c (List.mem_cons_of_mem d hc))]

/-- C10: `units` is parsed as the longest leading base-10 integer of the
trimmed text: any string of leading digits followed by a non-digit (such
as `"10.5"`, `"12abc"`, `"1e2"`) parses to the value of the digit run, the
parsed value is kept with no warning exactly when it is ≥ 1, and the
default-to-1-with-warning path is taken exactly when no leading integer
≥ 1 exists. -/
theorem units_leading_integer (ds rest : List Char) (ln : Nat)
    (p : Option Int) (u : Int) :
    (ds ≠ [] → (∀ c ∈ ds, c.isDigit = true) →
      (∀ c, rest.head? = some c → c.isDigit = false) →
      jsParseInt ⟨ds ++ rest⟩ = some (digitsToNat ds : Int)) ∧
    (jsParseInt "10.5" = some 10 ∧ jsParseInt "12abc" = some 12 ∧
      jsParseInt "1e2" = some 1 ∧ jsParseInt "abc" = none) ∧
    (p = some u → 1 ≤ u → sanitizeUnits ln p = (u, [])) ∧
    ((sanitizeUnits ln p).2 ≠ [] ↔ ¬∃ v, p = some v ∧ 1 ≤ v) := by
  refine ⟨?_, ⟨by decide, by decide, by decide, by decide⟩, ?_, ?_⟩
  · intro hne hall hrest
    obtain ⟨d, t, rfl⟩ : ∃ d t, ds = d :: t := by
      cases ds with
      | nil => exact absurd rfl hne
      | cons d t => exact ⟨d, t, rfl⟩
    have hd : d.isDigit = true := hall d (List.mem_cons_self d t)
    have hdrop :
        List.dropWhile Char.isWhitespace ((d :: t) ++ rest) = d :: (t ++ rest) := by
      rw [List.cons_append, List.dropWhile_cons, digit_not_whitespace d hd]
      simp
    have hsign : readSign (d :: (t ++ rest)) = (1, d :: (t ++ rest)) := by
      simp only [readSign]
      rw [if_neg (digit_not_dash d hd), if_neg (digit_not_plus d hd)]
    have htake : List.takeWhile Char.isDigit (d :: (t ++ rest)) = d :: t := by
      rw [← List.cons_append]
      exact takeWhile_append_all _ _ _ hall hrest
    simp only [jsParseInt]
    rw [hdrop, hsign]
    simp only [htake]
    simp
  · rintro rfl hu
    simp only [sanitizeUnits]
    rw [if_neg (by omega)]
  · cases p with
    | none => simp [sanitizeUnits]
    | some v =>
      by_cases hv : v ≤ 0
      · simp only [sanitizeUnits, if_pos hv]
        simp
        omega
      · simp only [sanitizeUnits, if_neg hv]
        simp
        omega

/-- Evaluates the longest-leading-digits clause at `"12abc"` and the
acceptance clause at the parsed value 12. -/
theorem units_leading_integer_witness :
    jsParseInt ⟨['1', '2'] ++ ['a', 'b', 'c']⟩ = some (digitsToNat ['1', '2'] : Int) ∧
    sanitizeUnits 2 (some 12) = (12, []) :=
  ⟨(units_leading_integer ['1', '2'] ['a', 'b', 'c'] 2 (some 12) 12).1
      (by decide) (by decide) (by decide),
    ((units_leading_integer ['1', '2'] ['a', 'b', 'c'] 2 (some 12) 12).2.2.1
      rfl (by decide))⟩

end SalesReport
namespace SalesReport

/-! ### Customer bucket keys (C9) -/

theorem customerKey_data (i n : String) :
    (customerKey i n).data = i.data ++ '|' :: n.data := by
  show (i ++ "|" ++ n).data = _
  simp [String.data_append]

theorem sep_append_inj : ∀ (l1 l2 r1 r2 : List Char), '|' ∉ l1 → '|' ∉ l2 →
    l1 ++ '|' :: r1 = l2 ++ '|' :: r2 → l1 = l2 ∧ r1 = r2 := by
  intro l1
  induction l1 with
  | nil =>
    intro l2 r1 r2 _ h2 heq
    cases l2 with
    | nil => simpa using heq
    | cons b t2 =>
      exfalso
      simp only [List.nil_append, List.cons_append, List.cons.injEq] at heq
      exact h2 (heq.1 ▸ List.mem_cons_self b t2)
  | cons a t1 ih =>
    intro l2 r1 r2 h1 h2 heq
    cases l2 with
    | nil =>
      exfalso
      simp only [List.nil_append, List.cons_append, List.cons.injEq] at heq
      exact h1 (heq.1 ▸ List.mem_cons_self a t1)
    | cons b t2 =>
      simp only [List.cons_append, List.cons.injEq] at heq
      obtain ⟨rfl, hrest⟩ := heq
      have ht := ih t2 r1 r2 (fun hm => h1 (List.mem_cons_of_mem _ hm))
        (fun hm => h2 (List.mem_cons_of_mem _ hm)) hrest
      exact ⟨by rw [ht.1], ht.2⟩

/-- C9 (amended): two rows with the same `customerId` and different
`customerName`s always land in distinct customer buckets; conversely, for
ids that do not contain the separator character `'|'`, equal bucket keys
force equal `(customerId, customerName)` pairs.  (For ids containing
`'|'` the key is not injective as a pair — see the counterexample.) -/
theorem customer_bucket_key_pair (cid n1 n2 i1 i2 : String) :
    (n1 ≠ n2 → customerKey cid n1 ≠ customerKey cid n2) ∧
    ('|' ∉ i1.data → '|' ∉ i2.data →
      customerKey i1 n1 = customerKey i2 n2 → i1 = i2 ∧ n1 = n2) := by
  constructor
  · intro hne heq
    have hdata := congrArg String.data heq
    rw [customerKey_data, customerKey_data] at hdata
    have := List.append_cancel_left hdata
    simp only [List.cons.injEq, true_and] at this
    exact hne (String.ext this)
  · intro hm1 hm2 heq
    have hdata := congrArg String.data heq
    rw [customerKey_data, customerKey_data] at hdata
    have := sep_append_inj i1.data i2.data n1.data n2.data hm1 hm2 hdata
    exact ⟨String.ext this.1, String.ext this.2⟩

/-- C9 counterexample: the key built by string concatenation does not act
as the pair `(customerId, customerName)` for all strings — the distinct
pairs `("A|B", "C")` and `("A", "B|C")` give the same key, and processing
two rows carrying those pairs folds both into a single customer bucket
with 2 orders. -/
theorem customer_bucket_key_collision :
    customerKey "A|B" "C" = customerKey "A" "B|C" ∧
    ¬("A|B" = "A" ∧ "C" = "B|C") ∧
    (processLines alwaysDate stdIdx 8 createAggregates 1
      ["O1,A|B,C,P,1,1,EU,d", "O2,A,B|C,P,1,1,EU,d"]).byCustomer.map Prod.fst
      = ["A|B|C"] ∧
    (processLines alwaysDate stdIdx 8 createAggregates 1
      ["O1,A|B,C,P,1,1,EU,d", "O2,A,B|C,P,1,1,EU,d"]).byCustomer.map
        (fun p => p.2.orders) = [2] :=
  ⟨by decide, by decide, by decide, by decide⟩

/-- Instantiates both clauses of the amended key property at concrete
pipe-free ids. -/
theorem customer_bucket_key_pair_witness :
    customerKey "C1" "Alice" ≠ customerKey "C1" "Bob" ∧
    ("C1" = "C1" ∧ "Alice" = "Alice") :=
  ⟨(customer_bucket_key_pair "C1" "Alice" "Bob" "C1" "C1").1 (by decide),
    (customer_bucket_key_pair "C1" "Alice" "Alice" "C1" "C1").2
      (by decide) (by decide) rfl⟩

/-! ### Warnings block (C7) -/

/-- C7: the Warnings block of the report is exactly `"(none)"` when no warning
was collected; otherwise it shows the first `min(50, n)` warnings in
emission order, followed by an overflow line showing the excess count iff
`n > 50`; and `formatReportLines` ends with precisely this block. -/
theorem warnings_block_capped (ws : List String) (agg : Aggregates) :
    (ws = [] → warningLines ws = ["(none)"]) ∧
    (ws ≠ [] → ws.length ≤ 50 → warningLines ws = ws.map (fun w => "- " ++ w)) ∧
    (50 < ws.length →
      warningLines ws = (ws.take 50).map (fun w => "- " ++ w) ++
        ["- (+" ++ toString (ws.length - 50) ++ " more)"]) ∧
    formatReportLines agg =
      summaryBlock agg ++ regionBlock agg ++ customerBlock agg ++
        ["", "Warnings", "--------"] ++ warningLines agg.warnings := by
  refine ⟨?_, ?_, ?_, rfl⟩
  · rintro rfl
    rfl
  · intro hne hle
    have hlen : ¬ws.length = 0 := by simpa [List.length_eq_zero] using hne
    simp only [warningLines, if_neg hlen, if_neg (by omega : ¬50 < ws.length)]
    rw [List.take_of_length_le hle]
    simp
  · intro hgt
    simp only [warningLines, if_neg (by omega : ¬ws.length = 0), if_pos hgt]

/-- Evaluates the Warnings block on a one-warning list. -/
theorem warnings_block_capped_witness :
    (["w"] : List String) ≠ [] ∧ (["w"] : List String).length ≤ 50 ∧
    warningLines ["w"] = (["w"] : List String).map (fun w => "- " ++ w) :=
  ⟨by decide, by decide,
    (warnings_block_capped ["w"] createAggregates).2.1 (by decide) (by decide)⟩

/-! ### Rejected rows (C5) -/

/-- C5: a data line is rejected iff it has fewer columns than the header or
its `orderId`/`customerId` is empty after trimming; a rejected line
contributes no warnings, and processing it changes the aggregates only by
incrementing `badRows` by exactly 1. -/
theorem rejected_row_only_counts (vd : String → Bool) (parts : List String)
    (idx : HeaderIndex) (n exp : Nat) (agg : Aggregates) (k : Nat)
    (line : String) :
    ((parseOrderRow vd parts idx n exp).1 = none ↔
      parts.length < exp ∨ getColumn parts idx "orderId" = "" ∨
        getColumn parts idx "customerId" = "") ∧
    ((parseOrderRow vd parts idx n exp).1 = none →
      (parseOrderRow vd parts idx n exp).2 = []) ∧
    ((jsSplit line ',').length < exp ∨
        getColumn (jsSplit line ',') idx "orderId" = "" ∨
        getColumn (jsSplit line ',') idx "customerId" = "" →
      processLine vd idx exp agg k line =
        { agg with badRows := agg.badRows + 1 }) := by
  have key : ∀ (parts2 : List String) (n2 : Nat),
      parts2.length < exp ∨ getColumn parts2 idx "orderId" = "" ∨
        getColumn parts2 idx "customerId" = "" →
      parseOrderRow vd parts2 idx n2 exp = (none, []) := by
    intro parts2 n2 h
    by_cases hA : parts2.length < exp
    · simp [parseOrderRow, hA]
    · have hB : getColumn parts2 idx "orderId" = "" ∨
          getColumn parts2 idx "customerId" = "" := by
        rcases h with h | h
        · exact absurd h hA
        · exact h
      simp [parseOrderRow, hA, hB]
  have hiff : (parseOrderRow vd parts idx n exp).1 = none ↔
      parts.length < exp ∨ getColumn parts idx "orderId" = "" ∨
        getColumn parts idx "customerId" = "" := by
    constructor
    · intro hnone
      by_contra hcon
      push_neg at hcon
      obtain ⟨h1, h2, h3⟩ := hcon
      have h1x : ¬parts.length < exp := by omega
      simp [parseOrderRow, h1x, h2, h3] at hnone
    · intro h
      rw [key parts n h]
  refine ⟨hiff, ?_, ?_⟩
  · intro hnone
    rw [key parts n (hiff.mp hnone)]
  · intro h
    have hrej := key (jsSplit line ',') (k + 1) h
    simp [processLine, hrej]

/-- Applies the frame property to a concrete two-column line. -/
theorem rejected_row_only_counts_witness :
    ((jsSplit "A1,C1" ',').length < 8 ∨
      getColumn (jsSplit "A1,C1" ',') stdIdx "orderId" = "" ∨
      getColumn (jsSplit "A1,C1" ',') stdIdx "customerId" = "") ∧
    processLine alwaysDate stdIdx 8 createAggregates 1 "A1,C1" =
      { createAggregates with badRows := createAggregates.badRows + 1 } :=
  ⟨by decide,
    (rejected_row_only_counts alwaysDate (jsSplit "A1,C1" ',') stdIdx 2 8
      createAggregates 1 "A1,C1").2.2 (by decide)⟩

end SalesReport
namespace SalesReport

/-! ### Header validation (C8) -/

theorem validateHeader_first_missing (idx : HeaderIndex) :
    ∀ (req : List String) (m : String), validateHeader idx req = some m →
      ∃ i : Nat, req[i]? = some m ∧ idx m = none ∧
        ∀ (j : Nat) (nm : String), j < i → req[j]? = some nm → idx nm ≠ none := by
  intro req
  induction req with
  | nil => intro m h; simp [validateHeader] at h
  | cons name rest ih =>
    intro m h
    simp only [validateHeader] at h
    cases hidx : idx name with
    | none =>
      rw [hidx] at h
      obtain rfl : name = m := Option.some.inj h
      exact ⟨0, by simp, hidx, fun j nm hj _ => absurd hj (Nat.not_lt_zero j)⟩
    | some v =>
      rw [hidx] at h
      obtain ⟨i, h1, h2, h3⟩ := ih m h
      refine ⟨i + 1, by simpa using h1, h2, ?_⟩
      intro j nm hj hget
      cases j with
      | zero =>
        have : name = nm := by simpa using hget
        rw [← this, hidx]
        simp
      | succ j2 =>
        exact h3 j2 nm (by omega) (by simpa using hget)

theorem buildHeaderIndex_eq (fields : List String) :
    ∀ (i : Nat) (idx : HeaderIndex) (name : String),
      buildHeaderIndex fields i idx name =
        match lastIdxOf name (fields.map jsTrim) with
        | some j => some (i + j)
        | none => idx name := by
  induction fields with
  | nil => intro i idx name; rfl
  | cons f rest ih =>
    intro i idx name
    simp only [buildHeaderIndex, List.map_cons, lastIdxOf]
    rw [ih]
    cases h : lastIdxOf name (rest.map jsTrim) with
    | some j =>
      simp only [Option.some.injEq]
      omega
    | none =>
      by_cases hf : jsTrim f = name
      · simp [hf]
      · have hf2 : ¬name = jsTrim f := fun hx => hf hx.symm
        simp [hf, hf2]

/-- C8: a header missing a required column aborts the run with exit code 1
before any data row is processed, reporting the first missing name in the
declared order (the check short-circuits); and in the header index a
repeated trimmed name resolves to the position of its last occurrence
(the later assignment silently wins). -/
theorem header_validation_order (vd : String → Bool) (raw : List String)
    (hdr : String) (rest : List String) (m : String) (idx : HeaderIndex)
    (req : List String) (headerLine name : String) :
    (validateHeader idx req = some m →
      ∃ i : Nat, req[i]? = some m ∧ idx m = none ∧
        ∀ (j : Nat) (nm : String), j < i → req[j]? = some nm → idx nm ≠ none) ∧
    (parseHeaderIndex headerLine name =
      lastIdxOf name ((jsSplit headerLine ',').map jsTrim)) ∧
    (readNonEmptyLines raw = hdr :: rest → rest ≠ [] →
      validateHeader (parseHeaderIndex hdr) requiredColumns = some m →
      run vd raw = Except.error (RunError.badHeader m) ∧
      exitCode (run vd raw) = 1) := by
  refine ⟨validateHeader_first_missing idx req m, ?_, ?_⟩
  · show buildHeaderIndex (jsSplit headerLine ',') 0 (fun _ => none) name = _
    rw [buildHeaderIndex_eq]
    cases h : lastIdxOf name ((jsSplit headerLine ',').map jsTrim) with
    | some j => simp
    | none => rfl
  · intro hlines hne hval
    have h1 : 1 ≤ rest.length := by
      cases rest with
      | nil => exact absurd rfl hne
      | cons a b => simp
    have hlen : ¬(hdr :: rest).length < 2 := by
      simp only [List.length_cons]
      omega
    have hrun : run vd raw = Except.error (RunError.badHeader m) := by
      simp [run, hlines, hlen, hval, h1]
    exact ⟨hrun, by rw [hrun]; rfl⟩

/-- Runs the abort path on a concrete file whose header lacks
`customerId`. -/
theorem header_validation_order_witness :
    validateHeader (parseHeaderIndex "orderId,x") requiredColumns =
      some "customerId" ∧
    (∃ i : Nat, requiredColumns[i]? = some "customerId" ∧
      parseHeaderIndex "orderId,x" "customerId" = none ∧
      ∀ (j : Nat) (nm : String), j < i → requiredColumns[j]? = some nm →
        parseHeaderIndex "orderId,x" nm ≠ none) ∧
    run alwaysDate ["orderId,x", "r1", "r2"] =
      Except.error (RunError.badHeader "customerId") ∧
    exitCode (run alwaysDate ["orderId,x", "r1", "r2"]) = 1 := by
  have h := header_validation_order alwaysDate ["orderId,x", "r1", "r2"]
    "orderId,x" ["r1", "r2"] "customerId" (parseHeaderIndex "orderId,x")
    requiredColumns "orderId,x" "customerId"
  have hval : validateHeader (parseHeaderIndex "orderId,x") requiredColumns =
      some "customerId" := by decide
  have habort := h.2.2 (by decide) (by decide) hval
  exact ⟨hval, h.1 hval, habort.1, habort.2⟩

/-! ### Report sorting (C6) -/

theorem regionLe_trans : ∀ a b c : String,
    regionLe a b = true → regionLe b c = true → regionLe a c = true := by
  intro a b c
  simp only [regionLe, decide_eq_true_eq]
  exact le_trans

theorem regionLe_total : ∀ a b : String,
    (regionLe a b || regionLe b a) = true := by
  intro a b
  simp only [regionLe, Bool.or_eq_true, decide_eq_true_eq]
  exact le_total a b

theorem customerLe_trans : ∀ a b c : CustomerEntry,
    customerLe a b = true → customerLe b c = true → customerLe a c = true := by
  intro a b c
  simp only [customerLe, decide_eq_true_eq]
  exact fun h1 h2 => le_trans h2 h1

theorem customerLe_total : ∀ a b : CustomerEntry,
    (customerLe a b || customerLe b a) = true := by
  intro a b
  simp only [customerLe, Bool.or_eq_true, decide_eq_true_eq]
  exact le_total b.net a.net

/-- C6: the By Region block lists exactly the region bucket keys in
ascending lexicographic order; the Top Customers block lists at most 10
entries, sorted by net descending over exactly the bucket entries, and the
sort is stable: any net-descending subsequence of the insertion-ordered
entries (in particular every run of equal nets) survives as a subsequence
of the sorted output. -/
theorem report_listing_sorted (agg : Aggregates) :
    List.Sorted (fun a b => a ≤ b) (buildSortedRegions agg) ∧
    (buildSortedRegions agg).Perm (agg.byRegion.map Prod.fst) ∧
    regionBlock agg = ["", "By Region", "---------"] ++
      (buildSortedRegions agg).map (regionLine agg) ∧
    List.Sorted (fun a b => b.net ≤ a.net) (buildSortedCustomers agg) ∧
    (buildSortedCustomers agg).Perm (customerEntries agg) ∧
    ((buildSortedCustomers agg).take 10).length ≤ 10 ∧
    customerBlock agg =
      ["", "Top Customers (by net)", "----------------------"] ++
        ((buildSortedCustomers agg).take 10).enum.map
          (fun p => customerLine p.1 p.2) ∧
    (∀ c, List.Pairwise (fun a b => customerLe a b = true) c →
      c.Sublist (customerEntries agg) →
      c.Sublist (buildSortedCustomers agg)) := by
  refine ⟨?_, List.mergeSort_perm _ _, rfl, ?_, List.mergeSort_perm _ _, ?_,
    rfl, ?_⟩
  · have h := List.sorted_mergeSort regionLe_trans regionLe_total
      (agg.byRegion.map Prod.fst)
    exact h.imp (fun hab => by simpa [regionLe] using hab)
  · have h := List.sorted_mergeSort customerLe_trans customerLe_total
      (customerEntries agg)
    exact h.imp (fun hab => by simpa [customerLe] using hab)
  · rw [List.length_take]
    exact min_le_left _ _
  · intro c hp hs
    exact List.sublist_mergeSort customerLe_trans customerLe_total hp hs

/-- Applies the stability clause to a two-customer tie (equal nets) in
insertion order. -/
theorem report_listing_sorted_witness :
    List.Pairwise (fun a b => customerLe a b = true)
      (customerEntries { createAggregates with
        byCustomer := [("A|X", emptyBucket), ("B|Y", emptyBucket)] }) ∧
    (customerEntries { createAggregates with
        byCustomer := [("A|X", emptyBucket), ("B|Y", emptyBucket)] }).Sublist
      (buildSortedCustomers { createAggregates with
        byCustomer := [("A|X", emptyBucket), ("B|Y", emptyBucket)] }) :=
  ⟨by decide,
    (report_listing_sorted { createAggregates with
      byCustomer := [("A|X", emptyBucket), ("B|Y", emptyBucket)] }).2.2.2.2.2.2.2
      _ (by decide) (List.Sublist.refl _)⟩

end SalesReport
namespace SalesReport

/-! ### Parser rejection helpers -/

theorem parseOrderRow_none_of_cond (vd : String → Bool) (parts : List String)
    (idx : HeaderIndex) (n exp : Nat)
    (h : parts.length < exp ∨ getColumn parts idx "orderId" = "" ∨
      getColumn parts idx "customerId" = "") :
    parseOrderRow vd parts idx n exp = (none, []) := by
  by_cases hA : parts.length < exp
  · simp [parseOrderRow, hA]
  · have hB : getColumn parts idx "orderId" = "" ∨
        getColumn parts idx "customerId" = "" := by
      rcases h with h | h
      · exact absurd h hA
      · exact h
    simp [parseOrderRow, hA, hB]

theorem parseOrderRow_none_iff (vd : String → Bool) (parts : List String)
    (idx : HeaderIndex) (n exp : Nat) :
    (parseOrderRow vd parts idx n exp).1 = none ↔
      parts.length < exp ∨ getColumn parts idx "orderId" = "" ∨
        getColumn parts idx "customerId" = "" := by
  constructor
  · intro hnone
    by_contra hcon
    push_neg at hcon
    obtain ⟨h1, h2, h3⟩ := hcon
    have h1x : ¬parts.length < exp := by omega
    simp [parseOrderRow, h1x, h2, h3] at hnone
  · intro h
    rw [parseOrderRow_none_of_cond vd parts idx n exp h]

theorem parseOrderRow_rejected_eq (vd : String → Bool) (parts : List String)
    (idx : HeaderIndex) (n exp : Nat)
    (h : (parseOrderRow vd parts idx n exp).1 = none) :
    parseOrderRow vd parts idx n exp = (none, []) :=
  parseOrderRow_none_of_cond vd parts idx n exp
    ((parseOrderRow_none_iff vd parts idx n exp).mp h)

/-- Every processed line either bumps `badRows` only, or is folded through
`applyRowToAggregates` as an accepted row. -/
theorem processLine_step (vd : String → Bool) (idx : HeaderIndex) (exp : Nat)
    (agg : Aggregates) (k : Nat) (line : String) :
    processLine vd idx exp agg k line = { agg with badRows := agg.badRows + 1 } ∨
    ∃ row : OrderRow,
      processLine vd idx exp agg k line =
        applyRowToAggregates
          { agg with warnings :=
              agg.warnings ++ (parseOrderRow vd (jsSplit line ',') idx (k + 1) exp).2 }
          row (lineAmounts row) ∧
      (parseOrderRow vd (jsSplit line ',') idx (k + 1) exp).1 = some row := by
  rcases h : parseOrderRow vd (jsSplit line ',') idx (k + 1) exp with ⟨o, ws⟩
  cases o with
  | none =>
    left
    have hws : ws = [] := by
      have h2 := parseOrderRow_rejected_eq vd (jsSplit line ',') idx (k + 1) exp
        (by rw [h])
      rw [h] at h2
      simpa using h2
    subst hws
    simp [processLine, h]
  | some row =>
    right
    exact ⟨row, by simp [processLine, h], by simp [h]⟩

/-! ### Bucket map lemmas -/

theorem findBucket_none_iff (m : List (String × Bucket)) (k : String) :
    findBucket m k = none ↔ k ∉ m.map Prod.fst := by
  induction m with
  | nil => simp [findBucket]
  | cons p rest ih =>
    simp only [findBucket, List.map_cons, List.mem_cons]
    by_cases h : p.1 = k
    · simp [h]
    · rw [if_neg h, ih]
      constructor
      · intro hk hor
        rcases hor with h1 | h1
        · exact h h1.symm
        · exact hk h1
      · intro hk h1
        exact hk (Or.inr h1)

theorem modifyBucket_map_fst (m : List (String × Bucket)) (k : String)
    (f : Bucket → Bucket) :
    (modifyBucket m k f).map Prod.fst = m.map Prod.fst := by
  induction m with
  | nil => rfl
  | cons p rest ih =>
    simp only [modifyBucket, List.map_cons] at ih ⊢
    by_cases h : p.1 = k
    · simp [h, ih]
    · simp [h, ih]

theorem modifyBucket_not_mem (m : List (String × Bucket)) (k : String)
    (f : Bucket → Bucket) (h : k ∉ m.map Prod.fst) :
    modifyBucket m k f = m := by
  induction m with
  | nil => rfl
  | cons p rest ih =>
    simp only [List.map_cons, List.mem_cons] at h
    push_neg at h
    simp only [modifyBucket, List.map_cons]
    rw [if_neg (fun he => h.1 he.symm)]
    have := ih (fun hm => h.2 hm)
    simp only [modifyBucket] at this
    rw [this]

theorem findBucket_modify_self (m : List (String × Bucket)) (k : String)
    (f : Bucket → Bucket) :
    findBucket (modifyBucket m k f) k = (findBucket m k).map f := by
  induction m with
  | nil => rfl
  | cons p rest ih =>
    simp only [modifyBucket, List.map_cons] at ih ⊢
    by_cases h : p.1 = k
    · simp [findBucket, h]
    · simp [findBucket, h, ih]

theorem findBucket_modify_other (m : List (String × Bucket)) (k k2 : String)
    (f : Bucket → Bucket) (hne : k2 ≠ k) :
    findBucket (modifyBucket m k f) k2 = findBucket m k2 := by
  induction m with
  | nil => rfl
  | cons p rest ih =>
    simp only [modifyBucket, List.map_cons] at ih ⊢
    by_cases h : p.1 = k
    · have hno : ¬p.1 = k2 := fun he => hne (he.symm.trans h)
      have hkk : ¬k = k2 := fun he => hne he.symm
      simp [findBucket, h, hno, hkk, ih]
    · by_cases h2 : p.1 = k2
      · have hkk : ¬k2 = k := hne
        simp [findBucket, h, h2, hkk]
      · simp [findBucket, h, h2, ih]

theorem findBucket_append (a b : List (String × Bucket)) (k : String) :
    findBucket (a ++ b) k =
      match findBucket a k with
      | some x => some x
      | none => findBucket b k := by
  induction a with
  | nil => rfl
  | cons p rest ih =>
    by_cases h : p.1 = k
    · simp [findBucket, h]
    · simp [findBucket, h, ih]

theorem sumOrders_cons (p : String × Bucket) (l : List (String × Bucket)) :
    sumOrders (p :: l) = p.2.orders + sumOrders l := by
  simp [sumOrders]

theorem sumOrders_append (a b : List (String × Bucket)) :
    sumOrders (a ++ b) = sumOrders a + sumOrders b := by
  simp [sumOrders]

theorem ordersAt_bump_self (m : List (String × Bucket)) (k : String)
    (row : OrderRow) (amts : LineAmounts) :
    ordersAt (bumpBucket m k row amts) k = ordersAt m k + 1 := by
  unfold ordersAt bumpBucket ensureBucket
  cases hf : findBucket m k with
  | some b =>
    simp only [Option.isSome_some, if_true, findBucket_modify_self, hf]
    simp
  | none =>
    simp only [Option.isSome_none, Bool.false_eq_true, if_false,
      findBucket_modify_self, findBucket_append, hf]
    simp [findBucket]

theorem ordersAt_bump_other (m : List (String × Bucket)) (k k2 : String)
    (row : OrderRow) (amts : LineAmounts) (hne : k2 ≠ k) :
    ordersAt (bumpBucket m k row amts) k2 = ordersAt m k2 := by
  unfold ordersAt bumpBucket ensureBucket
  cases hf : findBucket m k with
  | some b =>
    simp only [Option.isSome_some, if_true]
    rw [findBucket_modify_other _ _ _ _ hne]
  | none =>
    simp only [Option.isSome_none, Bool.false_eq_true, if_false]
    rw [findBucket_modify_other _ _ _ _ hne, findBucket_append]
    cases hf2 : findBucket m k2 with
    | some x => rfl
    | none =>
      have hkk : ¬k = k2 := fun he => hne he.symm
      simp [findBucket, hkk]

theorem sumOrders_modify_inc (k : String) (f : Bucket → Bucket)
    (hf : ∀ b, (f b).orders = b.orders + 1) :
    ∀ (m : List (String × Bucket)), k ∈ m.map Prod.fst →
      (m.map Prod.fst).Nodup →
      sumOrders (modifyBucket m k f) = sumOrders m + 1 := by
  intro m
  induction m with
  | nil => intro hmem; simp at hmem
  | cons p rest ih =>
    intro hmem hnd
    simp only [List.map_cons, List.nodup_cons] at hnd
    simp only [modifyBucket, List.map_cons]
    by_cases h : p.1 = k
    · have hrest : k ∉ rest.map Prod.fst := h ▸ hnd.1
      rw [if_pos h, sumOrders_cons]
      have hmod : rest.map (fun q => if q.1 = k then (q.1, f q.2) else q) = rest := by
        have := modifyBucket_not_mem rest k f hrest
        simpa [modifyBucket] using this
      rw [hmod, hf, sumOrders_cons]
      omega
    · have hmem2 : k ∈ rest.map Prod.fst := by
        rcases List.mem_cons.mp hmem with h1 | h1
        · exact absurd h1.symm h
        · exact h1
      rw [if_neg h, sumOrders_cons, sumOrders_cons]
      have := ih hmem2 hnd.2
      simp only [modifyBucket] at this
      rw [this]
      omega

theorem sumOrders_bump (m : List (String × Bucket)) (k : String)
    (row : OrderRow) (amts : LineAmounts)
    (hnd : (m.map Prod.fst).Nodup) :
    sumOrders (bumpBucket m k row amts) = sumOrders m + 1 := by
  unfold bumpBucket ensureBucket
  cases hf : findBucket m k with
  | some b =>
    simp only [Option.isSome_some, if_true]
    have hmem : k ∈ m.map Prod.fst := by
      by_contra hc
      rw [(findBucket_none_iff m k).mpr hc] at hf
      exact Option.noConfusion hf
    exact sumOrders_modify_inc k _ (fun b2 => rfl) m hmem hnd
  | none =>
    simp only [Option.isSome_none, Bool.false_eq_true, if_false]
    have hk : k ∉ m.map Prod.fst := (findBucket_none_iff m k).mp hf
    have hsplit : ∀ (f : Bucket → Bucket),
        modifyBucket (m ++ [(k, emptyBucket)]) k f =
          modifyBucket m k f ++ modifyBucket [(k, emptyBucket)] k f :=
      fun f => by simp [modifyBucket]
    rw [hsplit, modifyBucket_not_mem m k _ hk, sumOrders_append]
    simp [modifyBucket, sumOrders, emptyBucket]

theorem bump_map_fst_nodup (m : List (String × Bucket)) (k : String)
    (row : OrderRow) (amts : LineAmounts)
    (hnd : (m.map Prod.fst).Nodup) :
    ((bumpBucket m k row amts).map Prod.fst).Nodup := by
  unfold bumpBucket ensureBucket
  cases hf : findBucket m k with
  | some b =>
    simp only [Option.isSome_some, if_true, modifyBucket_map_fst]
    exact hnd
  | none =>
    simp only [Option.isSome_none, Bool.false_eq_true, if_false,
      modifyBucket_map_fst, List.map_append]
    have hk : k ∉ m.map Prod.fst := (findBucket_none_iff m k).mp hf
    refine List.Nodup.append hnd (List.nodup_singleton k) ?_
    intro a ha hb
    simp only [List.map_cons, List.map_nil, List.mem_singleton] at hb
    rw [hb] at ha
    exact hk ha

/-! ### Count invariants (C3 machinery) -/

/-- The C3 invariant: bucket order sums match `totalOrders`, the processed
line count splits into `totalOrders + badRows`, and bucket keys are
unique. -/
def countsInv (a : Aggregates) (n : Nat) : Prop :=
  sumOrders a.byRegion = a.totalOrders ∧
  sumOrders a.byCustomer = a.totalOrders ∧
  a.totalOrders + a.badRows = n ∧
  (a.byRegion.map Prod.fst).Nodup ∧
  (a.byCustomer.map Prod.fst).Nodup

theorem countsInv_create : countsInv createAggregates 0 := by
  simp [countsInv, createAggregates, sumOrders]

theorem countsInv_processLine (vd : String → Bool) (idx : HeaderIndex)
    (exp : Nat) (agg : Aggregates) (k n : Nat) (line : String)
    (h : countsInv agg n) :
    countsInv (processLine vd idx exp agg k line) (n + 1) := by
  obtain ⟨h1, h2, h3, h4, h5⟩ := h
  rcases processLine_step vd idx exp agg k line with hstep | ⟨row, heq, _⟩
  · rw [hstep]
    exact ⟨h1, h2, by simpa using by omega, h4, h5⟩
  · rw [heq]
    refine ⟨?_, ?_, ?_, ?_, ?_⟩
    · simp only [applyRowToAggregates]
      rw [sumOrders_bump _ _ _ _ h4]
      simpa using by omega
    · simp only [applyRowToAggregates]
      rw [sumOrders_bump _ _ _ _ h5]
      simpa using by omega
    · simp only [applyRowToAggregates]
      omega
    · simp only [applyRowToAggregates]
      exact bump_map_fst_nodup _ _ _ _ h4
    · simp only [applyRowToAggregates]
      exact bump_map_fst_nodup _ _ _ _ h5

theorem countsInv_processLines (vd : String → Bool) (idx : HeaderIndex)
    (exp : Nat) :
    ∀ (lines : List String) (agg : Aggregates) (k n : Nat),
      countsInv agg n →
      countsInv (processLines vd idx exp agg k lines) (n + lines.length) := by
  intro lines
  induction lines with
  | nil => intro agg k n h; simpa using h
  | cons l rest ih =>
    intro agg k n h
    simp only [processLines, List.length_cons]
    have := ih (processLine vd idx exp agg k l) (k + 1) (n + 1)
      (countsInv_processLine vd idx exp agg k n l h)
    have harith : n + 1 + rest.length = n + (rest.length + 1) := by omega
    rwa [harith] at this

/-- Case analysis on the embedded `run`. -/
theorem run_cases (vd : String → Bool) (raw : List String) :
    run vd raw = Except.error RunError.noData ∨
    (∃ m, run vd raw = Except.error (RunError.badHeader m)) ∨
    (∃ hdr rest, readNonEmptyLines raw = hdr :: rest ∧ rest ≠ [] ∧
      run vd raw = Except.ok (processLines vd (parseHeaderIndex hdr)
        ((jsSplit hdr ',').length) createAggregates 1 rest)) := by
  cases h : readNonEmptyLines raw with
  | nil => left; simp [run, h]
  | cons hdr rest =>
    cases rest with
    | nil => left; simp [run, h]
    | cons a b =>
      cases hv : validateHeader (parseHeaderIndex hdr) requiredColumns with
      | some m =>
        right; left
        exact ⟨m, by simp [run, h, hv]⟩
      | none =>
        right; right
        exact ⟨hdr, a :: b, rfl, by simp, by simp [run, h, hv]⟩

/-- C3: every data line either increments `badRows` by exactly 1 (leaving
all other aggregate state untouched) or increments `totalOrders`, exactly
one region bucket and exactly one customer bucket by 1 each; consequently
at every prefix of the fold from the empty aggregates the per-region and
per-customer order sums both equal `totalOrders`, and
`totalOrders + badRows` equals the number of data lines processed; a
successful run satisfies the same with the header excluded from the line
count. -/
theorem aggregate_count_invariants (vd : String → Bool) (idx : HeaderIndex)
    (exp : Nat) (agg : Aggregates) (k : Nat) (line : String) :
    (processLine vd idx exp agg k line = { agg with badRows := agg.badRows + 1 } ∨
      ((processLine vd idx exp agg k line).totalOrders = agg.totalOrders + 1 ∧
        (processLine vd idx exp agg k line).badRows = agg.badRows ∧
        ∃ rkey ckey : String,
          ordersAt (processLine vd idx exp agg k line).byRegion rkey =
            ordersAt agg.byRegion rkey + 1 ∧
          (∀ r : String, r ≠ rkey →
            ordersAt (processLine vd idx exp agg k line).byRegion r =
              ordersAt agg.byRegion r) ∧
          ordersAt (processLine vd idx exp agg k line).byCustomer ckey =
            ordersAt agg.byCustomer ckey + 1 ∧
          (∀ c : String, c ≠ ckey →
            ordersAt (processLine vd idx exp agg k line).byCustomer c =
              ordersAt agg.byCustomer c))) ∧
    (∀ (k2 : Nat) (lines : List String),
      sumOrders (processLines vd idx exp createAggregates k2 lines).byRegion =
        (processLines vd idx exp createAggregates k2 lines).totalOrders ∧
      sumOrders (processLines vd idx exp createAggregates k2 lines).byCustomer =
        (processLines vd idx exp createAggregates k2 lines).totalOrders ∧
      (processLines vd idx exp createAggregates k2 lines).totalOrders +
        (processLines vd idx exp createAggregates k2 lines).badRows =
          lines.length) ∧
    (∀ raw : List String, onSuccess (fun a =>
      sumOrders a.byRegion = a.totalOrders ∧
      sumOrders a.byCustomer = a.totalOrders ∧
      a.totalOrders + a.badRows + 1 = (readNonEmptyLines raw).length)
      (run vd raw)) := by
  refine ⟨?_, ?_, ?_⟩
  · rcases processLine_step vd idx exp agg k line with hstep | ⟨row, heq, _⟩
    · left; exact hstep
    · right
      rw [heq]
      refine ⟨by simp [applyRowToAggregates], by simp [applyRowToAggregates],
        row.region, customerKey row.customerId row.customerName, ?_, ?_, ?_, ?_⟩
      · simp only [applyRowToAggregates]
        exact ordersAt_bump_self _ _ _ _
      · intro r hr
        simp only [applyRowToAggregates]
        exact ordersAt_bump_other _ _ _ _ _ hr
      · simp only [applyRowToAggregates]
        exact ordersAt_bump_self _ _ _ _
      · intro c hc
        simp only [applyRowToAggregates]
        exact ordersAt_bump_other _ _ _ _ _ hc
  · intro k2 lines
    have h := countsInv_processLines vd idx exp lines createAggregates k2 0
      countsInv_create
    exact ⟨h.1, h.2.1, by simpa using h.2.2.1⟩
  · intro raw
    rcases run_cases vd raw with hc | ⟨m, hc⟩ | ⟨hdr, rest, hlines, hne, hc⟩
    · rw [hc]; exact trivial
    · rw [hc]; exact trivial
    · rw [hc]
      have h := countsInv_processLines vd (parseHeaderIndex hdr)
        ((jsSplit hdr ',').length) rest createAggregates 1 0 countsInv_create
      refine ⟨h.1, h.2.1, ?_⟩
      rw [hlines]
      have := h.2.2.1
      simp only [List.length_cons]
      omega

/-! ### Money invariants (C2 machinery) -/

theorem sanitizeUnits_ge_one (ln : Nat) (p : Option Int) :
    1 ≤ (sanitizeUnits ln p).1 := by
  cases p with
  | none => simp [sanitizeUnits]
  | some v =>
    by_cases h : v ≤ 0
    · simp [sanitizeUnits, h]
    · simp only [sanitizeUnits, if_neg h]
      omega

theorem sanitizeUnitPrice_nonneg (ln : Nat) (p : Option ℚ) :
    0 ≤ (sanitizeUnitPrice ln p).1 := by
  cases p with
  | none => simp [sanitizeUnitPrice]
  | some v =>
    by_cases h : v < 0
    · simp [sanitizeUnitPrice, h]
    · simp only [sanitizeUnitPrice, if_neg h]
      linarith

theorem parseOrderRow_some_fields (vd : String → Bool) (parts : List String)
    (idx : HeaderIndex) (n exp : Nat) (row : OrderRow)
    (h : (parseOrderRow vd parts idx n exp).1 = some row) :
    1 ≤ row.units ∧ 0 ≤ row.unitPrice := by
  by_cases hA : parts.length < exp
  · simp [parseOrderRow, hA] at h
  · by_cases hB : getColumn parts idx "orderId" = "" ∨
        getColumn parts idx "customerId" = ""
    · simp [parseOrderRow, hA, hB] at h
    · simp only [parseOrderRow, if_neg hA, if_neg hB, Option.some.injEq] at h
      rw [← h]
      exact ⟨sanitizeUnits_ge_one _ _, sanitizeUnitPrice_nonneg _ _⟩

theorem lineAmounts_add (row : OrderRow) :
    (lineAmounts row).lineGross =
      (lineAmounts row).lineNet + (lineAmounts row).lineDiscount := by
  simp [lineAmounts]

theorem lineAmounts_bounds (row : OrderRow) (hu : 1 ≤ row.units)
    (hp : 0 ≤ row.unitPrice) :
    0 ≤ (lineAmounts row).lineDiscount ∧
    (lineAmounts row).lineDiscount ≤ 1/4 * (lineAmounts row).lineGross := by
  have hg : 0 ≤ (row.units : ℚ) * row.unitPrice := by
    apply mul_nonneg _ hp
    have h1 : (1 : ℚ) ≤ (row.units : ℚ) := by exact_mod_cast hu
    linarith
  have h0 := discountRate_nonneg row
  have h4 := discountRate_le_quarter row
  constructor
  · simpa [lineAmounts] using mul_nonneg hg h0
  · simp only [lineAmounts]
    calc (row.units : ℚ) * row.unitPrice * calculateDiscountRate row ≤
        (row.units : ℚ) * row.unitPrice * (1/4) :=
          mul_le_mul_of_nonneg_left h4 hg
      _ = 1/4 * ((row.units : ℚ) * row.unitPrice) := by ring

theorem moneyInv_processLine (vd : String → Bool) (idx : HeaderIndex)
    (exp : Nat) (agg : Aggregates) (k : Nat) (line : String)
    (h : agg.gross = agg.net + agg.discounted) :
    (processLine vd idx exp agg k line).gross =
      (processLine vd idx exp agg k line).net +
        (processLine vd idx exp agg k line).discounted := by
  rcases processLine_step vd idx exp agg k line with hstep | ⟨row, heq, _⟩
  · rw [hstep]
    simpa using h
  · rw [heq]
    simp only [applyRowToAggregates]
    have hadd := lineAmounts_add row
    linarith

theorem moneyInv_processLines (vd : String → Bool) (idx : HeaderIndex)
    (exp : Nat) :
    ∀ (lines : List String) (agg : Aggregates) (k : Nat),
      agg.gross = agg.net + agg.discounted →
      (processLines vd idx exp agg k lines).gross =
        (processLines vd idx exp agg k lines).net +
          (processLines vd idx exp agg k lines).discounted := by
  intro lines
  induction lines with
  | nil => intro agg k h; simpa using h
  | cons l rest ih =>
    intro agg k h
    simp only [processLines]
    exact ih _ _ (moneyInv_processLine vd idx exp agg k l h)

/-- C2: an accepted row has sanitised `units ≥ 1` and `unitPrice ≥ 0`;
its derived amounts satisfy `lineGross = lineNet + lineDiscount` exactly
and `0 ≤ lineDiscount ≤ 0.25 · lineGross`; and over any whole run the
accumulators satisfy `gross = net + discounted` exactly (the embedding
computes with exact rationals). -/
theorem line_amounts_consistent (vd : String → Bool) (parts : List String)
    (idx : HeaderIndex) (n exp : Nat) (row : OrderRow) :
    ((parseOrderRow vd parts idx n exp).1 = some row →
      1 ≤ row.units ∧ 0 ≤ row.unitPrice) ∧
    (1 ≤ row.units → 0 ≤ row.unitPrice →
      (lineAmounts row).lineGross =
        (lineAmounts row).lineNet + (lineAmounts row).lineDiscount ∧
      0 ≤ (lineAmounts row).lineDiscount ∧
      (lineAmounts row).lineDiscount ≤ 1/4 * (lineAmounts row).lineGross) ∧
    (∀ raw : List String,
      onSuccess (fun a => a.gross = a.net + a.discounted) (run vd raw)) := by
  refine ⟨parseOrderRow_some_fields vd parts idx n exp row, ?_, ?_⟩
  · intro hu hp
    exact ⟨lineAmounts_add row, lineAmounts_bounds row hu hp⟩
  · intro raw
    rcases run_cases vd raw with hc | ⟨m, hc⟩ | ⟨hdr, rest, hlines, hne, hc⟩
    · rw [hc]; exact trivial
    · rw [hc]; exact trivial
    · rw [hc]
      exact moneyInv_processLines vd _ _ rest createAggregates 1
        (by simp [createAggregates])

/-- A concrete accepted row used by the amount-bound witness. -/
def sampleRow : OrderRow :=
  { orderId := "A1", customerId := "C1", customerName := "n",
    product := "P", region := "EU", units := 10, unitPrice := 1,
    createdAt := "d" }

/-- Applies the amount bounds to a concrete accepted row. -/
theorem line_amounts_consistent_witness :
    (parseOrderRow alwaysDate (jsSplit "A1,C1,n,P,10,1,EU,d" ',') stdIdx 2 8).1 =
      some sampleRow ∧
    (0 ≤ (lineAmounts sampleRow).lineDiscount ∧
      (lineAmounts sampleRow).lineDiscount ≤
        1/4 * (lineAmounts sampleRow).lineGross) := by
  have h := line_amounts_consistent alwaysDate (jsSplit "A1,C1,n,P,10,1,EU,d" ',')
    stdIdx 2 8 sampleRow
  have hb := h.2.1 (by decide) (by decide)
  exact ⟨by decide, hb.2.1, hb.2.2⟩

/-! ### Warning line numbers (C4) -/

theorem processLine_warnings (vd : String → Bool) (idx : HeaderIndex)
    (exp : Nat) (agg : Aggregates) (k : Nat) (line : String) :
    (processLine vd idx exp agg k line).warnings =
      agg.warnings ++ (parseOrderRow vd (jsSplit line ',') idx (k + 1) exp).2 := by
  rcases h : parseOrderRow vd (jsSplit line ',') idx (k + 1) exp with ⟨o, ws⟩
  cases o with
  | none => simp [processLine, h]
  | some row => simp [processLine, h, applyRowToAggregates]

theorem processLines_warnings (vd : String → Bool) (idx : HeaderIndex)
    (exp : Nat) :
    ∀ (lines : List String) (agg : Aggregates) (k : Nat),
      (processLines vd idx exp agg k lines).warnings =
        agg.warnings ++ warningsFromLines vd idx exp k lines := by
  intro lines
  induction lines with
  | nil => intro agg k; simp [processLines, warningsFromLines]
  | cons l rest ih =>
    intro agg k
    simp only [processLines, warningsFromLines]
    rw [ih, processLine_warnings]
    simp [List.append_assoc]

/-- C4 (amended): the `lineNumber` embedded in a warning is the 1-based
position of the row within the sequence of non-blank lines of the file
(header included): the warnings of a successful run are exactly
`warningsFromLines … 1 rest`, which parses the data row at offset `j`
with `lineNumber = j + 2`; when the file contains no blank lines at all
this coincides with the 1-based position in the original file, but an
interior blank line is skipped before numbering, so original-file
positions are not preserved in that case (see the counterexample). -/
theorem warning_line_number_filtered (vd : String → Bool) (raw : List String)
    (hdr : String) (rest : List String) :
    readNonEmptyLines raw = hdr :: rest → rest ≠ [] →
    validateHeader (parseHeaderIndex hdr) requiredColumns = none →
    runResultWarnings (run vd raw) =
      warningsFromLines vd (parseHeaderIndex hdr)
        ((jsSplit hdr ',').length) 1 rest ∧
    ((∀ l ∈ raw, jsTrim l ≠ "") → ∀ j : Nat, rest[j]? = raw[j + 1]?) := by
  intro hlines hne hval
  constructor
  · have h1 : 1 ≤ rest.length := by
      cases rest with
      | nil => exact absurd rfl hne
      | cons a b => simp
    have hrun : run vd raw = Except.ok (processLines vd (parseHeaderIndex hdr)
        ((jsSplit hdr ',').length) createAggregates 1 rest) := by
      simp [run, hlines, hval, h1]
    rw [hrun]
    show (processLines vd (parseHeaderIndex hdr)
      ((jsSplit hdr ',').length) createAggregates 1 rest).warnings = _
    rw [processLines_warnings]
    simp [createAggregates]
  · intro hnb j
    have hid : readNonEmptyLines raw = raw := by
      apply List.filter_eq_self.mpr
      intro a ha
      simpa using hnb a ha
    have hraw : raw = hdr :: rest := by rw [← hid, hlines]
    rw [hraw]
    simp

/-- C4 counterexample: with an interior blank line, the first data row sits
at 1-based position 3 of the original file, but the emitted warning says
`row 2` — the number is its position among the non-blank lines only. -/
theorem warning_line_number_counterexample :
    runResultWarnings (run alwaysDate [stdHeader, "", "A1,C1,,P,1,1,EU,d"]) =
      ["row 2 missing customerName for C1"] ∧
    [stdHeader, "", "A1,C1,,P,1,1,EU,d"][2]? = some "A1,C1,,P,1,1,EU,d" ∧
    "row 2 missing customerName for C1" ≠ "row 3 missing customerName for C1" :=
  ⟨by decide, by decide, by decide⟩

/-- Applies the amended numbering law to a concrete blank-free file. -/
theorem warning_line_number_filtered_witness :
    runResultWarnings (run alwaysDate [stdHeader, "A1,C1,,P,1,1,EU,d"]) =
      warningsFromLines alwaysDate (parseHeaderIndex stdHeader)
        ((jsSplit stdHeader ',').length) 1 ["A1,C1,,P,1,1,EU,d"] :=
  (warning_line_number_filtered alwaysDate [stdHeader, "A1,C1,,P,1,1,EU,d"]
    stdHeader ["A1,C1,,P,1,1,EU,d"] (by decide) (by decide) (by decide)).1

end SalesReport
